import Mathlib

/-!
Shallow embedding of the `rust-property` procedural-macro crate
(`src/parse.rs`, `src/generate.rs`, `src/lib.rs`).

The crate parses `#[property(...)]` attributes into a `FieldConf`,
classifies each field's type expression into a `FieldType` taxonomy,
and derives getter / setter / mutable-accessor / clear methods.

Panics of the Rust code (`unreachable!` arms and slice-index panics) are
modelled with `Option`: a `none` result stands for a panic.  Parse errors
(`syn::Error` values) are modelled with `Except ParseError`.
-/

set_option maxHeartbeats 1000000

namespace RustProperty

/-! ### Configuration data model (`src/parse.rs`) -/

/-- Mirrors `enum GetTypeConf { Auto, Ref, Copy_, Clone_ }`. -/
inductive GetTypeConf where
  | auto
  | ref
  | copy
  | clone
  deriving DecidableEq

/-- Mirrors `enum SetTypeConf { Ref, Own, None_, Replace }`. -/
inductive SetTypeConf where
  | ref
  | own
  | none_
  | replace
  deriving DecidableEq

/-- Mirrors `enum ClrScopeConf { Auto, Option_, All }`. -/
inductive ClrScopeConf where
  | auto
  | option
  | all
  deriving DecidableEq

/-- Mirrors `enum VisibilityConf { Disable, Public, Crate, Private }`. -/
inductive VisibilityConf where
  | disable
  | public
  | crate
  | private_
  deriving DecidableEq

/-- Mirrors `enum MethodNameConf { Name(String), Format { prefix, suffix } }`;
the `Format` payload fields are called `pre`/`suf` here. -/
inductive MethodNameConf where
  | name (n : String)
  | format (pre suf : String)
  deriving DecidableEq

/-- Mirrors `struct GetFieldConf { vis, name, typ }`. -/
structure GetFieldConf where
  vis : VisibilityConf
  name : MethodNameConf
  typ : GetTypeConf
  deriving DecidableEq

/-- Mirrors `struct SetFieldConf { vis, name, typ, full_option }`. -/
structure SetFieldConf where
  vis : VisibilityConf
  name : MethodNameConf
  typ : SetTypeConf
  fullOption : Bool
  deriving DecidableEq

/-- Mirrors `struct MutFieldConf { vis, name }`. -/
structure MutFieldConf where
  vis : VisibilityConf
  name : MethodNameConf
  deriving DecidableEq

/-- Mirrors `struct ClrFieldConf { vis, name, scope }`. -/
structure ClrFieldConf where
  vis : VisibilityConf
  name : MethodNameConf
  scope : ClrScopeConf
  deriving DecidableEq

/-- Mirrors `struct FieldConf { get, set, mut_, clr, skip }`. -/
structure FieldConf where
  get : GetFieldConf
  set : SetFieldConf
  mut_ : MutFieldConf
  clr : ClrFieldConf
  skip : Bool
  deriving DecidableEq

/-- Mirrors `impl Default for FieldConf` (`src/parse.rs`): every visibility
is `Crate`, the getter name is the bare field name, setter/mutator/clearer
names are `set_`/`mut_`/`clear_` + field name, get type `Auto`, set type
`Ref`, clear scope `Option_`, `full_option` and `skip` off. -/
def FieldConf.default : FieldConf :=
  { get := { vis := .crate, name := .format "" "", typ := .auto }
    set := { vis := .crate, name := .format "set_" "", typ := .ref, fullOption := false }
    mut_ := { vis := .crate, name := .format "mut_" "" }
    clr := { vis := .crate, name := .format "clear_" "", scope := .option }
    skip := false }

/-- Mirrors `MethodNameConf::complete`: an explicit name is used as is, a
format pair is concatenated around the field identifier. -/
def MethodNameConf.complete (c : MethodNameConf) (fieldName : String) : String :=
  match c with
  | .name n => n
  | .format pre suf => pre ++ fieldName ++ suf

/-! ### Type expressions (the fragment of `syn::Type` the crate inspects)

A `syn::Type::Path` is a list of segments, each an identifier with an
optional angle-bracketed generic-argument list (`none` stands for
`PathArguments::None` or non-angle-bracketed arguments).
`syn::Type::Array` carries an element type and a length.  Every other
`syn::Type` variant is collapsed into `other`, which is all the crate
distinguishes.  A `syn::GenericArgument` is either a type or something
else (lifetime, const, binding, ...). -/

mutual
inductive RustType where
  | path (segs : List (String × Option (List GenericArg))) : RustType
  | array (elem : RustType) (len : Nat) : RustType
  | other : RustType

inductive GenericArg where
  | type (t : RustType) : GenericArg
  | other : GenericArg
end

/-- Mirrors `enum FieldType` (`src/generate.rs`). -/
inductive FieldType where
  | number
  | boolean
  | character
  | string
  | box (args : List GenericArg)
  | array (elem : RustType) (len : Nat)
  | vector (elem : RustType)
  | option (args : List GenericArg)
  | unhandled (name : Option String)

/-- Mirrors `enum GetType` (`src/generate.rs`). -/
inductive GetType where
  | ref
  | copy
  | clone
  | string
  | slice (elem : RustType)
  | option (args : List GenericArg)

/-- Mirrors `enum ClrMethod` (`src/generate.rs`). -/
inductive ClrMethod where
  | setZero
  | setNone
  | setDefault
  | callClear
  | fillWithDefault
  | none_
  deriving DecidableEq

/-- Mirrors `FieldType::from_type` (`src/generate.rs`).  A `none` result
models a panic: the `unreachable!()` arms for `Vec`/`Box`/`Option` heads
without an angle-bracketed argument list, the `unreachable!()` for a `Vec`
first argument that is not a type, and the index panic of `inner.args[0]`
on an empty argument list. -/
def FieldType.fromType : RustType → Option FieldType
  | .path [] => some (.unhandled none)
  | .path ((id, argsOpt) :: rest) =>
    match id with
    | "f32" | "f64"
    | "i8" | "i16" | "i32" | "i64" | "i128" | "isize"
    | "u8" | "u16" | "u32" | "u64" | "u128" | "usize" => some .number
    | "bool" => some .boolean
    | "char" => some .character
    | "String" => some .string
    | "Vec" =>
      match argsOpt with
      | some (GenericArg.type innerType :: _) => some (.vector innerType)
      | some (GenericArg.other :: _) => none
      | some [] => none
      | none => none
    | "Box" =>
      match argsOpt with
      | some args => some (.box args)
      | none => none
    | "Option" =>
      match argsOpt with
      | some args => some (.option args)
      | none => none
    | _ =>
      some (.unhandled (some (rest.getLastD (id, argsOpt)).1))
  | .array elem len => some (.array elem len)
  | .other => some (.unhandled none)

theorem FieldType.fromType_option_shape (t : RustType) (args : List GenericArg)
    (h : FieldType.fromType t = some (.option args)) :
    ∃ id rest, t = RustType.path ((id, some args) :: rest) := by
  cases t with
  | other => simp [FieldType.fromType] at h
  | array e l => simp [FieldType.fromType] at h
  | path segs =>
    cases segs with
    | nil => simp [FieldType.fromType] at h
    | cons seg0 rest =>
      obtain ⟨id, argsOpt⟩ := seg0
      unfold FieldType.fromType at h
      split at h
      case h_2 =>
        rename_i x id2 argsOpt2 rest2 heq
        injection heq with heq
        injection heq with heqA heqB
        injection heqA with heq1 heq2
        subst_vars
        split at h
        all_goals
          first
          | (injection h with h; exact FieldType.noConfusion h)
          | skip
        · cases argsOpt2 with
          | none => exact Option.noConfusion h
          | some args0 =>
            cases args0 with
            | nil => exact Option.noConfusion h
            | cons a l =>
              cases a with
              | type t0 => injection h with h; exact FieldType.noConfusion h
              | other => exact Option.noConfusion h
        · cases argsOpt2 with
          | none => exact Option.noConfusion h
          | some args0 => injection h with h; exact FieldType.noConfusion h
        · cases argsOpt2 with
          | none => exact Option.noConfusion h
          | some args0 =>
            injection h with h
            injection h with h
            subst h
            exact ⟨"Option", rest2, rfl⟩
      all_goals (injection h with h; exact FieldType.noConfusion h)

/-- The composite `GetType::from_field_type(&FieldType::from_type(t))` that
`GetType::from_field_type` applies recursively to the inner argument of an
`Option` type (`src/generate.rs`); `none` models a panic of either step.
`GetType.ofTypeAuto_eq` states the relation to `GetType.fromFieldType`. -/
def GetType.ofTypeAuto (t : RustType) : Option GetType :=
  match hft : FieldType.fromType t with
  | none => none
  | some .number | some .boolean | some .character => some .copy
  | some .string => some .string
  | some (.array elem _) => some (.slice elem)
  | some (.vector inner) => some (.slice inner)
  | some (.box _) => some .ref
  | some (.unhandled _) => some .ref
  | some (.option args) =>
    match args with
    | [GenericArg.type inner] =>
      match GetType.ofTypeAuto inner with
      | none => none
      | some .copy => some .copy
      | some _ => some (.option args)
    | _ => some (.option args)
termination_by sizeOf t
decreasing_by
  obtain ⟨id, rest, rfl⟩ := FieldType.fromType_option_shape t _ hft
  simp
  omega

/-- Mirrors `GetType::from_field_type` (`src/generate.rs`).  In the `Option`
case the source computes `from_field_type(&FieldType::from_type(inner))` on
the single inner type argument, which is `GetType.ofTypeAuto inner`; a
`none` result models a panic of that nested classification. -/
def GetType.fromFieldType : FieldType → Option GetType
  | .number | .boolean | .character => some .copy
  | .string => some .string
  | .array elem _ => some (.slice elem)
  | .vector inner => some (.slice inner)
  | .box _ => some .ref
  | .option args =>
    match args with
    | [GenericArg.type inner] =>
      match GetType.ofTypeAuto inner with
      | none => none
      | some .copy => some .copy
      | some _ => some (.option args)
    | _ => some (.option args)
  | .unhandled _ => some .ref

/-- `GetType.ofTypeAuto` is classification followed by `fromFieldType`. -/
theorem GetType.ofTypeAuto_eq (t : RustType) :
    GetType.ofTypeAuto t = (FieldType.fromType t).bind GetType.fromFieldType := by
  rw [GetType.ofTypeAuto.eq_def]
  split
  case h_10 =>
    rename_i args hft
    conv_rhs => rw [hft]
    cases args with
    | nil => rfl
    | cons a l =>
      cases a with
      | other => rfl
      | type inner =>
        cases l with
        | nil => rfl
        | cons b m => rfl
  all_goals (rename_i hft; rw [hft]; rfl)

/-- Mirrors `ClrMethod::from_field_type` (`src/generate.rs`): the "natural"
clear action of a taxonomy tag.  The catch-all `_ => ClrMethod::None` of the
source covers `Box` and `Unhandled(None)`. -/
def ClrMethod.fromFieldType : FieldType → ClrMethod
  | .number => .setZero
  | .option _ => .setNone
  | .boolean | .character => .setDefault
  | .string | .vector _ => .callClear
  | .array _ _ => .fillWithDefault
  | .unhandled (some typeName) =>
    match typeName with
    | "String" | "PathBuf" | "Vec" | "VecDeque" | "LinkedList" | "HashMap"
    | "BTreeMap" | "HashSet" | "BTreeSet" | "BinaryHeap" => .callClear
    | _ => .none_
  | .box _ => .none_
  | .unhandled none => .none_

/-! ### Attribute syntax and parsing (`src/parse.rs`)

The fragment of `syn` attribute syntax the crate inspects: a path is its
list of segment identifiers (`is_ident` holds exactly for a one-element
list), a literal is either a string literal or something else, and nested
meta items are shallow.  An attribute that already went through
`Attribute::parse_meta` is a `Meta`. -/

inductive Lit where
  | str (s : String)
  | other

mutual
inductive Meta where
  | path (p : List String)
  | list (p : List String) (nested : List NestedMeta)
  | nameValue (p : List String) (l : Lit)

inductive NestedMeta where
  | meta (m : Meta)
  | lit (l : Lit)
end

/-- The `syn::Error` values raised in `src/parse.rs`, one constructor per
distinct error message. -/
inductive ParseError where
  /-- "this attribute was unknown" -/
  | unknownAttribute
  /-- "this attribute has been set twice" (`HashSet`/`HashMap` insertion) -/
  | duplicateOption
  /-- "this kind of attribute has been set twice" (`check_path_params`) -/
  | duplicateKindOption
  /-- "this literal should be a string literal" -/
  | notStringLiteral
  /-- "this attribute should be a path or a name-value pair" -/
  | badNestedMeta
  /-- "the attribute in nested meta should not be a literal" -/
  | literalNotAllowed
  /-- "this attribute should not be empty" -/
  | emptyAttribute
  /-- "this attribute should be a single ident" -/
  | notSingleIdent
  /-- "unsupport attribute `...`" -/
  | unsupportedAttribute (name : String)
  /-- "do not set prefix or suffix if name was set" -/
  | conflictingNaming
  /-- "unreachable result" -/
  | unreachableResult
  /-- "the attribute should not be a path" -/
  | pathNotAllowed
  /-- "the attribute should not be a name-value pair" -/
  | nameValueNotAllowed
  deriving DecidableEq

/-- Mirrors `VISIBILITY_OPTIONS`. -/
def visibilityOptions : List String := ["disable", "public", "crate", "private"]

/-- Mirrors `SET_OPTION_FULL_OPTION`. -/
def setOptionFullOption : List String := ["full_option"]

/-- Mirrors `NAME_OPTION`: key "name", free-form value. -/
def nameOption : String × Option (List String) := ("name", none)

/-- Mirrors the "prefix" option: free-form value. -/
def preOption : String × Option (List String) := ("prefix", none)

/-- Mirrors the "suffix" option: free-form value. -/
def sufOption : String × Option (List String) := ("suffix", none)

/-- Mirrors `GET_TYPE_OPTIONS`. -/
def getTypeOptions : String × Option (List String) :=
  ("type", some ["auto", "ref", "copy", "clone"])

/-- Mirrors `SET_TYPE_OPTIONS`. -/
def setTypeOptions : String × Option (List String) :=
  ("type", some ["ref", "own", "none", "replace"])

/-- Mirrors `CLR_TYPE_OPTIONS`. -/
def clrTypeOptions : String × Option (List String) :=
  ("scope", some ["auto", "option", "all"])

/-- The collection loop at the start of `FieldConf::apply_attrs` for a
`Meta::List`: gather bare-path flags into a set and `key = "value"` pairs
into a map, failing on a duplicate path, a duplicate key, a non-string
literal value, a nested list, or a bare literal. -/
def collectParams : List NestedMeta → List (List String) → List (List String × String) →
    Except ParseError (List (List String) × List (List String × String))
  | [], pathParams, nvParams => .ok (pathParams, nvParams)
  | .meta (.path p) :: rest, pathParams, nvParams =>
    if p ∈ pathParams then .error .duplicateOption
    else collectParams rest (pathParams ++ [p]) nvParams
  | .meta (.nameValue p (.str s)) :: rest, pathParams, nvParams =>
    if p ∈ nvParams.map Prod.fst then .error .duplicateOption
    else collectParams rest pathParams (nvParams ++ [(p, s)])
  | .meta (.nameValue _ .other) :: _, _, _ => .error .notStringLiteral
  | .meta (.list _ _) :: _, _, _ => .error .badNestedMeta
  | .lit _ :: _, _, _ => .error .literalNotAllowed

/-- The inner loops of `check_path_params`: find the first option group
containing an option the path `is_ident` of, returning the group index and
the matched option. -/
def findPathOption (p : List String) : List (List String) → Option (Nat × String)
  | [] => none
  | group :: rest =>
    match group.find? (fun opt => p = [opt]) with
    | some opt => some (0, opt)
    | none => (findPathOption p rest).map (fun io => (io.1 + 1, io.2))

/-- The main loop of `check_path_params` with its accumulated `result`. -/
def checkPathParamsGo (options : List (List String)) :
    List (List String) → List (Option String) → Except ParseError (List (Option String))
  | [], result => .ok result
  | p :: ps, result =>
    match findPathOption p options with
    | none => .error .unknownAttribute
    | some io =>
      if (result.getD io.1 none).isSome then .error .duplicateKindOption
      else checkPathParamsGo options ps (result.set io.1 (some io.2))

/-- Mirrors `check_path_params` (`src/parse.rs`). -/
def checkPathParams (pathParams : List (List String)) (options : List (List String)) :
    Except ParseError (List (Option String)) :=
  checkPathParamsGo options pathParams (options.map fun _ => none)

/-- The inner loop of `check_namevalue_params`: scan the option table for a
key the path `is_ident` of; for an enumerated option the value must be in
the group, otherwise scanning continues and ultimately fails as unknown. -/
def findNvOption (p : List String) (v : String) :
    List (String × Option (List String)) → Option String
  | [] => none
  | (k, groupOpt) :: rest =>
    if p = [k] then
      match groupOpt with
      | some group => if group.contains v then some k else findNvOption p v rest
      | none => some k
    else findNvOption p v rest

/-- `HashMap::insert` on an association list: replace a present key,
append an absent one. -/
def insertAssoc (l : List (String × String)) (k v : String) : List (String × String) :=
  if l.any (fun kv => kv.1 = k) then
    l.map (fun kv => if kv.1 = k then (k, v) else kv)
  else l ++ [(k, v)]

/-- The main loop of `check_namevalue_params` with its accumulated map. -/
def checkNamevalueParamsGo (options : List (String × Option (List String))) :
    List (List String × String) → List (String × String) →
    Except ParseError (List (String × String))
  | [], result => .ok result
  | (n, v) :: ps, result =>
    match findNvOption n v options with
    | none => .error .unknownAttribute
    | some k => checkNamevalueParamsGo options ps (insertAssoc result k v)

/-- Mirrors `check_namevalue_params` (`src/parse.rs`). -/
def checkNamevalueParams (nvParams : List (List String × String))
    (options : List (String × Option (List String))) :
    Except ParseError (List (String × String)) :=
  checkNamevalueParamsGo options nvParams []

/-- Mirrors `VisibilityConf::parse_from_input`. -/
def VisibilityConf.parseFromInput : Option String → Except ParseError (Option VisibilityConf)
  | none => .ok none
  | some "disable" => .ok (some .disable)
  | some "public" => .ok (some .public)
  | some "crate" => .ok (some .crate)
  | some "private" => .ok (some .private_)
  | some _ => .error .unreachableResult

/-- Mirrors `GetTypeConf::parse_from_input` (keyed on "type"). -/
def GetTypeConf.parseFromInput (nvs : List (String × String)) :
    Except ParseError (Option GetTypeConf) :=
  match nvs.lookup "type" with
  | none => .ok none
  | some "auto" => .ok (some .auto)
  | some "ref" => .ok (some .ref)
  | some "copy" => .ok (some .copy)
  | some "clone" => .ok (some .clone)
  | some _ => .error .unreachableResult

/-- Mirrors `SetTypeConf::parse_from_input` (keyed on "type"). -/
def SetTypeConf.parseFromInput (nvs : List (String × String)) :
    Except ParseError (Option SetTypeConf) :=
  match nvs.lookup "type" with
  | none => .ok none
  | some "ref" => .ok (some .ref)
  | some "own" => .ok (some .own)
  | some "none" => .ok (some .none_)
  | some "replace" => .ok (some .replace)
  | some _ => .error .unreachableResult

/-- Mirrors `ClrScopeConf::parse_from_input` (keyed on "scope"). -/
def ClrScopeConf.parseFromInput (nvs : List (String × String)) :
    Except ParseError (Option ClrScopeConf) :=
  match nvs.lookup "scope" with
  | none => .ok none
  | some "auto" => .ok (some .auto)
  | some "option" => .ok (some .option)
  | some "all" => .ok (some .all)
  | some _ => .error .unreachableResult

/-- Mirrors `MethodNameConf::parse_from_input`: an explicit "name" excludes
"prefix"/"suffix"; a missing side of a format pair is the empty string. -/
def MethodNameConf.parseFromInput (nvs : List (String × String)) :
    Except ParseError (Option MethodNameConf) :=
  match nvs.lookup "name" with
  | some n =>
    if (nvs.lookup "prefix").isSome ∨ (nvs.lookup "suffix").isSome then
      .error .conflictingNaming
    else .ok (some (.name n))
  | none =>
    match nvs.lookup "prefix", nvs.lookup "suffix" with
    | some pre, some suf => .ok (some (.format pre suf))
    | some pre, none => .ok (some (.format pre ""))
    | none, some suf => .ok (some (.format "" suf))
    | none, none => .ok none

/-- Mirrors `FieldConf::apply_attrs` (`src/parse.rs`).  The `"clr"` arm
reproduces the source as written: its visibility and naming choices are
stored into the `mut_` configuration (only the `scope` choice reaches
`clr`). -/
def FieldConf.applyAttrs (conf : FieldConf) (meta : Meta) : Except ParseError FieldConf :=
  match meta with
  | .path p =>
    if p = ["skip"] then .ok { conf with skip := true }
    else .error .unknownAttribute
  | .list lpath nested => do
    let pv ← collectParams nested [] []
    let pathParams := pv.1
    let nvParams := pv.2
    if pathParams = [] ∧ nvParams = [] then
      throw .emptyAttribute
    else
      match lpath with
      | [scopeName] =>
        match scopeName with
        | "get" => do
          let paths ← checkPathParams pathParams [visibilityOptions]
          let nvs ← checkNamevalueParams nvParams
            [nameOption, preOption, sufOption, getTypeOptions]
          let visOpt ← VisibilityConf.parseFromInput (paths.getD 0 none)
          let conf := match visOpt with
            | some choice => { conf with get := { conf.get with vis := choice } }
            | none => conf
          let nameOpt ← MethodNameConf.parseFromInput nvs
          let conf := match nameOpt with
            | some choice => { conf with get := { conf.get with name := choice } }
            | none => conf
          let typOpt ← GetTypeConf.parseFromInput nvs
          let conf := match typOpt with
            | some choice => { conf with get := { conf.get with typ := choice } }
            | none => conf
          pure conf
        | "set" => do
          let paths ← checkPathParams pathParams [visibilityOptions, setOptionFullOption]
          let nvs ← checkNamevalueParams nvParams
            [nameOption, preOption, sufOption, setTypeOptions]
          let visOpt ← VisibilityConf.parseFromInput (paths.getD 0 none)
          let conf := match visOpt with
            | some choice => { conf with set := { conf.set with vis := choice } }
            | none => conf
          let conf := { conf with set := { conf.set with fullOption := (paths.getD 1 none).isSome } }
          let nameOpt ← MethodNameConf.parseFromInput nvs
          let conf := match nameOpt with
            | some choice => { conf with set := { conf.set with name := choice } }
            | none => conf
          let typOpt ← SetTypeConf.parseFromInput nvs
          let conf := match typOpt with
            | some choice => { conf with set := { conf.set with typ := choice } }
            | none => conf
          pure conf
        | "mut" => do
          let paths ← checkPathParams pathParams [visibilityOptions]
          let nvs ← checkNamevalueParams nvParams [nameOption, preOption, sufOption]
          let visOpt ← VisibilityConf.parseFromInput (paths.getD 0 none)
          let conf := match visOpt with
            | some choice => { conf with mut_ := { conf.mut_ with vis := choice } }
            | none => conf
          let nameOpt ← MethodNameConf.parseFromInput nvs
          let conf := match nameOpt with
            | some choice => { conf with mut_ := { conf.mut_ with name := choice } }
            | none => conf
          pure conf
        | "clr" => do
          let paths ← checkPathParams pathParams [visibilityOptions]
          let nvs ← checkNamevalueParams nvParams
            [nameOption, preOption, sufOption, clrTypeOptions]
          let visOpt ← VisibilityConf.parseFromInput (paths.getD 0 none)
          let conf := match visOpt with
            | some choice => { conf with mut_ := { conf.mut_ with vis := choice } }
            | none => conf
          let nameOpt ← MethodNameConf.parseFromInput nvs
          let conf := match nameOpt with
            | some choice => { conf with mut_ := { conf.mut_ with name := choice } }
            | none => conf
          let scopeOpt ← ClrScopeConf.parseFromInput nvs
          let conf := match scopeOpt with
            | some choice => { conf with clr := { conf.clr with scope := choice } }
            | none => conf
          pure conf
        | other => throw (.unsupportedAttribute other)
      | _ => throw .notSingleIdent
  | .nameValue _ _ => .error .nameValueNotAllowed

/-- The loop of `parse_attrs` over `list.nested` together with
`parse_nested_meta`: apply each nested meta in order, rejecting literals. -/
def applyNestedList : FieldConf → List NestedMeta → Except ParseError FieldConf
  | conf, [] => .ok conf
  | conf, .meta m :: rest => do applyNestedList (← conf.applyAttrs m) rest
  | _, .lit _ :: _ => .error .literalNotAllowed

/-- Mirrors `parse_attrs` (`src/parse.rs`) on already-parsed outer
attributes: `property` lists are applied entry by entry, a bare `property`
path or a `property = "..."` pair is rejected, every other attribute is
ignored. -/
def parseAttrs : FieldConf → List Meta → Except ParseError FieldConf
  | conf, [] => .ok conf
  | conf, .path p :: rest =>
    if p = ["property"] then .error .pathNotAllowed
    else parseAttrs conf rest
  | conf, .list p nested :: rest =>
    if p = ["property"] then
      if nested.isEmpty then .error .emptyAttribute
      else do parseAttrs (← applyNestedList conf nested) rest
    else parseAttrs conf rest
  | conf, .nameValue p _ :: rest =>
    if p = ["property"] then .error .nameValueNotAllowed
    else parseAttrs conf rest

/-! ### Method generation (`src/generate.rs` `derive_property_for_field`,
`src/lib.rs` `derive_property`) -/

/-- The three token streams `VisibilityConf::to_ts` can emit (`pub`,
`pub(crate)`, inherited/empty); `Disable` emits `Option::None` and
suppresses the method. -/
inductive VisTs where
  | pub
  | pubCrate
  | inherited
  deriving DecidableEq

/-- Mirrors `VisibilityConf::to_ts` (`src/parse.rs`). -/
def VisibilityConf.toTs : VisibilityConf → Option VisTs
  | .disable => none
  | .public => some .pub
  | .crate => some .pubCrate
  | .private_ => some .inherited

/-- Shape of one generated method: one constructor per `quote!` arm of
`derive_property_for_field`, carrying exactly the type fragments that are
interpolated into the generated signature. -/
inductive MethodKind where
  /-- `fn name(&self) -> &#ret { &self.field }` -/
  | getRef (ret : RustType)
  /-- `fn name(&self) -> #ret { self.field }` -/
  | getCopy (ret : RustType)
  /-- `fn name(&self) -> #ret { self.field.clone() }` -/
  | getClone (ret : RustType)
  /-- `fn name(&self) -> &str { &self.field[..] }` -/
  | getStr
  /-- `fn name(&self) -> &[#elem] { &self.field[..] }` -/
  | getSlice (elem : RustType)
  /-- `fn name(&self) -> Option<&#args> { self.field.as_ref() }` -/
  | getOption (args : List GenericArg)
  /-- setter of a `Vec` field: `IntoIterator` of `Into<#inner>`, one of the
  four `SetTypeConf` behaviors, `Replace` returning `#fieldTy` -/
  | setVector (t : SetTypeConf) (inner : RustType) (fieldTy : RustType)
  /-- setter of an `Option` field without `full_option`: takes
  `T: Into<#args>`, stores `Some(val.into())` -/
  | setOption (t : SetTypeConf) (args : List GenericArg) (fieldTy : RustType)
  /-- plain setter: takes `T: Into<#fieldTy>`, assigns directly -/
  | setPlain (t : SetTypeConf) (fieldTy : RustType)
  /-- `fn name(&mut self) -> &mut #fieldTy { &mut self.field }` -/
  | mutRef (fieldTy : RustType)
  /-- `self.field = 0;` -/
  | clrSetZero
  /-- `self.field = None;` -/
  | clrSetNone
  /-- `self.field = Default::default();` -/
  | clrSetDefault
  /-- `self.field.clear();` -/
  | clrCallClear
  /-- `self.field.fill_with(Default::default);` -/
  | clrFillWithDefault

/-- One emitted method descriptor: visibility tokens, completed name, and
signature/body shape. -/
structure Method where
  vis : VisTs
  name : String
  kind : MethodKind

/-- Mirrors `struct FieldDef { ident, ty, conf }` (`src/parse.rs`). -/
structure FieldDef where
  ident : String
  ty : RustType
  conf : FieldConf

/-- The comparison `*inner_type == syn::parse_quote! { str }` in
`derive_property_for_field`: equality with the bare one-segment path `str`
carrying no generic arguments. -/
def isStrBare : RustType → Bool
  | .path [("str", none)] => true
  | _ => false

/-- The getter block of `derive_property_for_field` (`src/generate.rs`):
skipped when visibility is `Disable`; under `Auto` the shape comes from
`GetType::from_field_type` (which can panic, hence `Option`); for a `Box`
of exactly one argument under `Auto` whose pointee is the bare `str`, the
interpolated field type is rewritten to `str`. -/
def getBranch (f : FieldDef) (pft : FieldType) : Option (List Method) :=
  match f.conf.get.vis.toTs with
  | none => some []
  | some visibility => do
    let methodName := f.conf.get.name.complete f.ident
    let getType ← match f.conf.get.typ with
      | .auto => GetType.fromFieldType pft
      | .ref => some GetType.ref
      | .copy => some GetType.copy
      | .clone => some GetType.clone
    let fieldType :=
      match pft, f.conf.get.typ with
      | .box [GenericArg.type inner], .auto =>
        if isStrBare inner then inner else f.ty
      | _, _ => f.ty
    some [⟨visibility, methodName,
      match getType with
      | .ref => .getRef fieldType
      | .copy => .getCopy fieldType
      | .clone => .getClone fieldType
      | .string => .getStr
      | .slice elem => .getSlice elem
      | .option args => .getOption args⟩]

/-- The setter block of `derive_property_for_field`: a `Vec` field takes an
iterator of convertible elements, an `Option` field without `full_option`
takes a bare convertible inner value, everything else (including `Option`
with `full_option`) takes a value convertible to the declared field type. -/
def setBranch (f : FieldDef) (pft : FieldType) : List Method :=
  match f.conf.set.vis.toTs with
  | none => []
  | some visibility =>
    let methodName := f.conf.set.name.complete f.ident
    match pft with
    | .vector innerType => [⟨visibility, methodName, .setVector f.conf.set.typ innerType f.ty⟩]
    | .option innerType =>
      if f.conf.set.fullOption then [⟨visibility, methodName, .setPlain f.conf.set.typ f.ty⟩]
      else [⟨visibility, methodName, .setOption f.conf.set.typ innerType f.ty⟩]
    | _ => [⟨visibility, methodName, .setPlain f.conf.set.typ f.ty⟩]

/-- The mutable-accessor block of `derive_property_for_field`: no taxonomy
branching at all. -/
def mutBranch (f : FieldDef) : List Method :=
  match f.conf.mut_.vis.toTs with
  | none => []
  | some visibility => [⟨visibility, f.conf.mut_.name.complete f.ident, .mutRef f.ty⟩]

/-- The `clr.scope` resolution written inline in the clear block of
`derive_property_for_field`: `Auto` keeps the natural action, `Option_`
keeps only `SetNone`, `All` turns `None` into `SetDefault`. -/
def resolveClr (scope : ClrScopeConf) (autoClrMethod : ClrMethod) : ClrMethod :=
  match scope with
  | .auto => autoClrMethod
  | .option => if autoClrMethod = ClrMethod.setNone then autoClrMethod else ClrMethod.none_
  | .all => if autoClrMethod = ClrMethod.none_ then ClrMethod.setDefault else autoClrMethod

/-- The clear block of `derive_property_for_field`: natural action from
`ClrMethod::from_field_type`, then scope resolution; a resolved
`ClrMethod::None` (like a disabled visibility) emits nothing. -/
def clrBranch (f : FieldDef) (pft : FieldType) : List Method :=
  match f.conf.clr.vis.toTs with
  | none => []
  | some visibility =>
    match resolveClr f.conf.clr.scope (ClrMethod.fromFieldType pft) with
    | .setZero => [⟨visibility, f.conf.clr.name.complete f.ident, .clrSetZero⟩]
    | .setNone => [⟨visibility, f.conf.clr.name.complete f.ident, .clrSetNone⟩]
    | .setDefault => [⟨visibility, f.conf.clr.name.complete f.ident, .clrSetDefault⟩]
    | .callClear => [⟨visibility, f.conf.clr.name.complete f.ident, .clrCallClear⟩]
    | .fillWithDefault => [⟨visibility, f.conf.clr.name.complete f.ident, .clrFillWithDefault⟩]
    | .none_ => []

/-- Mirrors `derive_property_for_field` (`src/generate.rs`): classify the
field type, then push the getter, setter, mutable accessor and clearer in
that order.  `none` models a panic of the classifier or of the recursive
`Auto` get-shape resolution. -/
def derivePropertyForField (f : FieldDef) : Option (List Method) := do
  let pft ← FieldType.fromType f.ty
  let getMs ← getBranch f pft
  pure (getMs ++ setBranch f pft ++ mutBranch f ++ clrBranch f pft)

/-- Mirrors the fold in `derive_property` (`src/lib.rs`): concatenate the
methods of every non-skipped field in declaration order. -/
def deriveProperty : List FieldDef → Option (List Method)
  | [] => some []
  | f :: rest => do
    let ms ← if f.conf.skip then pure [] else derivePropertyForField f
    let msRest ← deriveProperty rest
    pure (ms ++ msRest)

/-- Whether a method descriptor is a clear/reset method (one of the five
clear bodies). -/
def MethodKind.isClr : MethodKind → Bool
  | .clrSetZero | .clrSetNone | .clrSetDefault | .clrCallClear | .clrFillWithDefault => true
  | _ => false

/-- A nested attribute entry the collection loop accepts: a bare path flag
or a `key = "string"` pair. -/
def NestedMeta.wellFormed : NestedMeta → Bool
  | .meta (.path _) => true
  | .meta (.nameValue _ (.str _)) => true
  | _ => false

/-- Whether an entry is the bare flag with path `p`. -/
def NestedMeta.isFlagEntry (p : List String) : NestedMeta → Bool
  | .meta (.path q) => q == p
  | _ => false

/-- Whether an entry is a `key = "value"` pair whose key path is `p`. -/
def NestedMeta.isKeyEntry (p : List String) : NestedMeta → Bool
  | .meta (.nameValue q _) => q == p
  | _ => false

/-! ### Claim theorems -/

/-- C9 (code bug): the claim says the classifier is total and never
panics, even for a known wrapper head without an angle-bracketed generic
argument list.  The code contradicts its own `unreachable!()` assertion
there: classifying the bare path `Vec` panics (modelled as `none`). -/
theorem C9_classifier_panics_on_bare_vec :
    FieldType.fromType (RustType.path [("Vec", none)]) = none := rfl

/-- C6 counterexample: an `Unrecognized` field with trailing name
`PathBuf` — not one of the eight container names the claim lists — still
resolves to the invoke-clear action, so the claim's "no-action for every
other Boxed or Unrecognized field" is false at this input. -/
theorem C6_counterexample :
    ClrMethod.fromFieldType (FieldType.unhandled (some "PathBuf")) = ClrMethod.callClear ∧
    ClrMethod.callClear ≠ ClrMethod.none_ := ⟨rfl, by decide⟩

/-- C6 amended: the allow-list of `ClrMethod::from_field_type` has TEN
names — the eight owning containers plus `String` and `PathBuf` (reachable
as trailing names of multi-segment paths such as `std::string::String`).
An `Unrecognized` field clears exactly when its trailing name is on that
list; every `Boxed` field and every nameless `Unrecognized` field resolves
to no action. -/
theorem C6_amended :
    (∀ tn : String,
      ClrMethod.fromFieldType (FieldType.unhandled (some tn)) =
        (if tn ∈ ["String", "PathBuf", "Vec", "VecDeque", "LinkedList", "HashMap",
            "BTreeMap", "HashSet", "BTreeSet", "BinaryHeap"] then ClrMethod.callClear
          else ClrMethod.none_)) ∧
    (∀ args : List GenericArg, ClrMethod.fromFieldType (FieldType.box args) = ClrMethod.none_) ∧
    ClrMethod.fromFieldType (FieldType.unhandled none) = ClrMethod.none_ := by
  refine ⟨fun tn => ?_, fun args => rfl, rfl⟩
  unfold ClrMethod.fromFieldType
  split
  case h_8 =>
    rename_i x typeName heq
    injection heq with heq
    injection heq with heq
    subst heq
    split <;> first | decide | simp_all
  all_goals simp_all

/-- C2 (code bug): applying the attribute `clr(disable)` to the default
configuration changes the MUTABLE-ACCESSOR visibility and leaves the clear
configuration untouched — the `"clr"` arm of `FieldConf::apply_attrs`
stores visibility and naming into `self.mut_`.  The claim (clear-scope
options must mutate only the clear configuration) states the intended
behavior, which the spec explicitly calls a latent defect of the code. -/
theorem C2_clr_options_mutate_mut :
    ∃ conf : FieldConf,
      FieldConf.default.applyAttrs (Meta.list ["clr"] [.meta (.path ["disable"])]) = .ok conf ∧
      conf.mut_.vis = VisibilityConf.disable ∧
      conf.clr.vis = VisibilityConf.crate ∧
      conf.mut_.name = MethodNameConf.format "mut_" "" ∧
      conf.clr.scope = ClrScopeConf.option :=
  ⟨_, rfl, rfl, rfl, rfl, rfl⟩

/-- C8 counterexample: with a bare `skip` flag first, a later unknown
entry in the same `property` list still causes a parse error, so "no other
option of that field is processed" is false as stated. -/
theorem C8_counterexample :
    parseAttrs FieldConf.default
      [Meta.list ["property"] [.meta (.path ["skip"]), .meta (.path ["bogus"])]] =
      .error ParseError.unknownAttribute := rfl

/-- C8 amended: a bare `skip` flag sets `skip := true` and changes nothing
else, but the remaining entries of the field's attribute list are still
parsed and applied — they can alter the configuration (here `get(disable)`)
and can fail.  `skip` only makes the derive loop emit no methods for the
field. -/
theorem C8_amended :
    (∀ conf : FieldConf, conf.applyAttrs (Meta.path ["skip"]) = .ok { conf with skip := true }) ∧
    (∃ conf, parseAttrs FieldConf.default
        [Meta.list ["property"]
          [.meta (.path ["skip"]), .meta (.list ["get"] [.meta (.path ["disable"])])]] =
        .ok conf ∧ conf.skip = true ∧ conf.get.vis = VisibilityConf.disable) ∧
    (∀ (ident : String) (ty : RustType) (g : GetFieldConf) (s : SetFieldConf)
        (m : MutFieldConf) (c : ClrFieldConf),
      deriveProperty [⟨ident, ty, ⟨g, s, m, c, true⟩⟩] = some []) := by
  exact ⟨fun conf => rfl, ⟨_, rfl, rfl, rfl⟩, fun ident ty g s m c => rfl⟩

/-- C1 counterexample: a record with one `u64` field and no attributes
yields THREE method descriptors under the default configuration, not two —
the default visibility of the mutable accessor is `Crate`, not `Disable`,
so a `mut_` method is generated. -/
theorem C1_counterexample :
    (deriveProperty [⟨"value", RustType.path [("u64", none)], FieldConf.default⟩]).map
      List.length = some 3 := rfl

/-- C1 amended: a record with a single field of a primitive unsigned
integer type and no attributes (so the configuration is the built-in
default) yields exactly THREE descriptors: a crate-visible copy-returning
getter named like the field, a crate-visible `set_`-prefixed setter of the
`Ref` variant taking a value convertible into the field type, and a
crate-visible `mut_`-prefixed mutable accessor.  No clear method is
emitted — not because `clr` visibility is `Disable` (it is `Crate`), but
because the natural `SetZero` action is suppressed by the default
`Option_` clear scope. -/
theorem C1_amended (ident uname : String)
    (h : uname ∈ ["u8", "u16", "u32", "u64", "u128", "usize"]) :
    parseAttrs FieldConf.default [] = .ok FieldConf.default ∧
    deriveProperty [⟨ident, RustType.path [(uname, none)], FieldConf.default⟩] =
      some [⟨VisTs.pubCrate, ident, .getCopy (RustType.path [(uname, none)])⟩,
        ⟨VisTs.pubCrate, "set_" ++ ident, .setPlain SetTypeConf.ref (RustType.path [(uname, none)])⟩,
        ⟨VisTs.pubCrate, "mut_" ++ ident, .mutRef (RustType.path [(uname, none)])⟩] := by
  refine ⟨rfl, ?_⟩
  simp only [List.mem_cons, List.not_mem_nil, or_false] at h
  rcases h with rfl | rfl | rfl | rfl | rfl | rfl
  all_goals
    simp [deriveProperty, derivePropertyForField, FieldType.fromType, getBranch,
      setBranch, mutBranch, clrBranch, FieldConf.default, GetType.fromFieldType,
      resolveClr, ClrMethod.fromFieldType, VisibilityConf.toTs, MethodNameConf.complete,
      String.append_empty, String.empty_append]

/-- C1 witness. -/
theorem C1_amended_witness :
    parseAttrs FieldConf.default [] = .ok FieldConf.default ∧
    deriveProperty [⟨"value", RustType.path [("u64", none)], FieldConf.default⟩] =
      some [⟨VisTs.pubCrate, "value", .getCopy (RustType.path [("u64", none)])⟩,
        ⟨VisTs.pubCrate, "set_value", .setPlain SetTypeConf.ref (RustType.path [("u64", none)])⟩,
        ⟨VisTs.pubCrate, "mut_value", .mutRef (RustType.path [("u64", none)])⟩] :=
  C1_amended "value" "u64" (by decide)

/-- C10: a naming attribute giving only one side of the prefix/suffix pair
sets the other side to the empty string instead of inheriting it, and the
parsed rule replaces the previous one wholesale — so a suffix-only override
in the `set` scope drops the built-in `set_` prefix: the setter is named
`field ++ suffix`. -/
theorem C10_partial_naming_resets_other_side (s p n : String) :
    MethodNameConf.parseFromInput [("suffix", s)] = .ok (some (.format "" s)) ∧
    MethodNameConf.parseFromInput [("prefix", p)] = .ok (some (.format p "")) ∧
    (MethodNameConf.format "" s).complete n = n ++ s ∧
    (∃ conf : FieldConf, FieldConf.default.applyAttrs
        (Meta.list ["set"] [.meta (.nameValue ["suffix"] (.str s))]) = .ok conf ∧
      conf.set.name = MethodNameConf.format "" s ∧
      conf.set.name.complete n = n ++ s) := by
  refine ⟨rfl, rfl, ?hc, ⟨_, rfl, rfl, ?hc2⟩⟩
  case hc => show "" ++ n ++ s = n ++ s; rw [String.empty_append]
  case hc2 => show "" ++ n ++ s = n ++ s; rw [String.empty_append]

/-- C4 counterexample: the claim's "in every other Optional case the read
method returns a borrowed optional" fails when resolving the single inner
type argument panics: for `Option<Vec>` (with `Vec` lacking its argument
list) the recursive resolution — and with it the whole derivation — panics
instead of producing `Option<&T>`. -/
theorem C4_counterexample :
    GetType.fromFieldType
      (FieldType.option [GenericArg.type (RustType.path [("Vec", none)])]) = none ∧
    derivePropertyForField
      ⟨"x", RustType.path [("Option", some [GenericArg.type (RustType.path [("Vec", none)])])],
        FieldConf.default⟩ = none := by
  have h : GetType.ofTypeAuto (RustType.path [("Vec", none)]) = none := by
    rw [GetType.ofTypeAuto_eq]; rfl
  constructor
  · simp [GetType.fromFieldType, h]
  · simp [derivePropertyForField, FieldType.fromType, getBranch, FieldConf.default,
      GetType.fromFieldType, VisibilityConf.toTs, h]

/-- C4 amended: under read-type `Auto`, an `Optional` taxonomy with exactly
one type argument resolves to a bare copy exactly when the inner argument
itself resolves (recursively, via the same rule) to copy-return, and to a
borrowed optional otherwise — PROVIDED the recursive resolution of the
inner argument succeeds (does not panic); every `Optional` whose argument
list is not a single type argument resolves to a borrowed optional. -/
theorem C4_amended :
    (∀ (t : RustType) (g : GetType), GetType.ofTypeAuto t = some g →
      GetType.fromFieldType (FieldType.option [GenericArg.type t]) =
        some (match g with
          | GetType.copy => GetType.copy
          | _ => GetType.option [GenericArg.type t])) ∧
    (∀ args : List GenericArg,
      (match args with | [GenericArg.type _] => False | _ => True) →
      GetType.fromFieldType (FieldType.option args) = some (GetType.option args)) := by
  constructor
  · intro t g hg
    simp only [GetType.fromFieldType, hg]
    cases g <;> rfl
  · intro args hargs
    match args with
    | [] => rfl
    | GenericArg.other :: l => rfl
    | GenericArg.type t :: a :: l => rfl
    | [GenericArg.type t] => exact absurd hargs (by simp)

/-- C4 witness: `Option<u8>` resolves to a bare copy, `Option` with an
empty argument list resolves to a borrowed optional. -/
theorem C4_amended_witness :
    GetType.fromFieldType (FieldType.option [GenericArg.type (RustType.path [("u8", none)])]) =
      some GetType.copy ∧
    GetType.fromFieldType (FieldType.option []) = some (GetType.option []) := by
  constructor
  · have h : GetType.ofTypeAuto (RustType.path [("u8", none)]) = some GetType.copy := by
      rw [GetType.ofTypeAuto_eq]; rfl
    exact C4_amended.1 _ _ h
  · exact C4_amended.2 [] trivial

/-- C5: a field classified as `Boxed` with exactly one generic argument,
under read-type `Auto` and a non-disabled get visibility, gets a read
method returning a borrowed reference; its return type is the bare `str`
when the single pointee argument is the bare `str` path, and the declared
wrapper type otherwise. -/
theorem C5_box_auto_get (f : FieldDef) (arg : GenericArg)
    (hty : f.ty = RustType.path [("Box", some [arg])])
    (hauto : f.conf.get.typ = GetTypeConf.auto)
    (hvis : f.conf.get.vis ≠ VisibilityConf.disable) :
    ∃ (v : VisTs) (rest : List Method),
      derivePropertyForField f =
        some (⟨v, f.conf.get.name.complete f.ident,
          MethodKind.getRef (match arg with
            | GenericArg.type inner => if isStrBare inner then inner else f.ty
            | GenericArg.other => f.ty)⟩ :: rest) := by
  obtain ⟨ident, ty, conf⟩ := f
  obtain ⟨⟨gvis, gname, gtyp⟩, sconf, mconf, cconf, skp⟩ := conf
  have hty' : ty = RustType.path [("Box", some [arg])] := hty
  have hauto' : gtyp = GetTypeConf.auto := hauto
  have hvis' : gvis ≠ VisibilityConf.disable := hvis
  subst hty'
  subst hauto'
  cases arg with
  | type inner =>
    cases gvis with
    | disable => exact absurd rfl hvis'
    | public => exact ⟨VisTs.pub, _, rfl⟩
    | crate => exact ⟨VisTs.pubCrate, _, rfl⟩
    | private_ => exact ⟨VisTs.inherited, _, rfl⟩
  | other =>
    cases gvis with
    | disable => exact absurd rfl hvis'
    | public => exact ⟨VisTs.pub, _, rfl⟩
    | crate => exact ⟨VisTs.pubCrate, _, rfl⟩
    | private_ => exact ⟨VisTs.inherited, _, rfl⟩

/-- C5 witness: a `Box<str>` field under the default configuration gets a
crate-visible read method returning `&str`. -/
theorem C5_box_auto_get_witness :
    ∃ (v : VisTs) (rest : List Method),
      derivePropertyForField
        ⟨"data", RustType.path [("Box", some [GenericArg.type (RustType.path [("str", none)])])],
          FieldConf.default⟩ =
        some (⟨v, FieldConf.default.get.name.complete "data",
          MethodKind.getRef (RustType.path [("str", none)])⟩ :: rest) :=
  C5_box_auto_get
    ⟨"data", RustType.path [("Box", some [GenericArg.type (RustType.path [("str", none)])])],
      FieldConf.default⟩
    (GenericArg.type (RustType.path [("str", none)])) rfl rfl (by decide)

/-- If some bare flag path occurs twice among well-formed entries (or once
while already collected), the collection loop fails with the duplicate
error. -/
theorem collectParams_dup_flag (l : List NestedMeta) (ps : List (List String))
    (nvs : List (List String × String)) (p : List String)
    (hwf : ∀ e ∈ l, e.wellFormed = true)
    (hdup : 2 ≤ l.countP (NestedMeta.isFlagEntry p) ∨
      (p ∈ ps ∧ 1 ≤ l.countP (NestedMeta.isFlagEntry p))) :
    collectParams l ps nvs = .error .duplicateOption := by
  induction l generalizing ps nvs with
  | nil => rcases hdup with h | ⟨hp, h⟩ <;> simp [List.countP_nil] at h
  | cons e rest ih =>
    have hwfe := hwf e (List.mem_cons_self e rest)
    have hwfr : ∀ x ∈ rest, x.wellFormed = true :=
      fun x hx => hwf x (List.mem_cons_of_mem e hx)
    match e with
    | .meta (.path q) =>
      by_cases hq : q ∈ ps
      · simp [collectParams, hq]
      · simp only [collectParams, hq, ite_false]
        apply ih (ps ++ [q]) nvs hwfr
        by_cases hpq : p = q
        · subst hpq
          rcases hdup with h2 | ⟨hp, h1⟩
          · right
            refine ⟨List.mem_append_right ps (by simp), ?_⟩
            have hstep : (NestedMeta.meta (Meta.path p) :: rest).countP
                (NestedMeta.isFlagEntry p) =
                rest.countP (NestedMeta.isFlagEntry p) + 1 := by
              rw [List.countP_cons]
              simp [NestedMeta.isFlagEntry]
            rw [hstep] at h2
            omega
          · exact absurd hp hq
        · have hcnt : rest.countP (NestedMeta.isFlagEntry p) =
              (NestedMeta.meta (Meta.path q) :: rest).countP (NestedMeta.isFlagEntry p) := by
            simp [List.countP_cons, NestedMeta.isFlagEntry]
            intro hqp
            exact absurd hqp.symm hpq
          rcases hdup with h2 | ⟨hp, h1⟩
          · left; rw [hcnt]; exact h2
          · right; exact ⟨List.mem_append_left _ hp, by rw [hcnt]; exact h1⟩
    | .meta (.nameValue q (.str s)) =>
      have hcnt : rest.countP (NestedMeta.isFlagEntry p) =
          (NestedMeta.meta (Meta.nameValue q (.str s)) :: rest).countP
            (NestedMeta.isFlagEntry p) := by
        simp [List.countP_cons, NestedMeta.isFlagEntry]
      by_cases hq : q ∈ nvs.map Prod.fst
      · simp [collectParams, hq]
      · simp only [collectParams]
        rw [if_neg hq]
        apply ih ps (nvs ++ [(q, s)]) hwfr
        rw [hcnt]
        exact hdup
    | .meta (.nameValue q .other) => simp [NestedMeta.wellFormed] at hwfe
    | .meta (.list q n) => simp [NestedMeta.wellFormed] at hwfe
    | .lit v => simp [NestedMeta.wellFormed] at hwfe

/-- If some `key = "value"` key path occurs twice among well-formed entries
(or once while already collected), the collection loop fails with the
duplicate error. -/
theorem collectParams_dup_key (l : List NestedMeta) (ps : List (List String))
    (nvs : List (List String × String)) (p : List String)
    (hwf : ∀ e ∈ l, e.wellFormed = true)
    (hdup : 2 ≤ l.countP (NestedMeta.isKeyEntry p) ∨
      (p ∈ nvs.map Prod.fst ∧ 1 ≤ l.countP (NestedMeta.isKeyEntry p))) :
    collectParams l ps nvs = .error .duplicateOption := by
  induction l generalizing ps nvs with
  | nil => rcases hdup with h | ⟨hp, h⟩ <;> simp [List.countP_nil] at h
  | cons e rest ih =>
    have hwfe := hwf e (List.mem_cons_self e rest)
    have hwfr : ∀ x ∈ rest, x.wellFormed = true :=
      fun x hx => hwf x (List.mem_cons_of_mem e hx)
    match e with
    | .meta (.path q) =>
      have hcnt : rest.countP (NestedMeta.isKeyEntry p) =
          (NestedMeta.meta (Meta.path q) :: rest).countP (NestedMeta.isKeyEntry p) := by
        simp [List.countP_cons, NestedMeta.isKeyEntry]
      by_cases hq : q ∈ ps
      · simp [collectParams, hq]
      · simp only [collectParams, hq, ite_false]
        apply ih (ps ++ [q]) nvs hwfr
        rw [hcnt]
        exact hdup
    | .meta (.nameValue q (.str s)) =>
      by_cases hq : q ∈ nvs.map Prod.fst
      · simp [collectParams, hq]
      · simp only [collectParams]
        rw [if_neg hq]
        apply ih ps (nvs ++ [(q, s)]) hwfr
        by_cases hpq : p = q
        · subst hpq
          rcases hdup with h2 | ⟨hp, h1⟩
          · right
            refine ⟨by simp, ?_⟩
            have hstep : (NestedMeta.meta (Meta.nameValue p (.str s)) :: rest).countP
                (NestedMeta.isKeyEntry p) =
                rest.countP (NestedMeta.isKeyEntry p) + 1 := by
              rw [List.countP_cons]
              simp [NestedMeta.isKeyEntry]
            rw [hstep] at h2
            omega
          · exact absurd hp hq
        · have hcnt : rest.countP (NestedMeta.isKeyEntry p) =
              (NestedMeta.meta (Meta.nameValue q (.str s)) :: rest).countP
                (NestedMeta.isKeyEntry p) := by
            simp [List.countP_cons, NestedMeta.isKeyEntry]
            intro hqp
            exact absurd hqp.symm hpq
          rcases hdup with h2 | ⟨hp, h1⟩
          · left; rw [hcnt]; exact h2
          · right
            refine ⟨?_, by rw [hcnt]; exact h1⟩
            simpa using Or.inl hp
    | .meta (.nameValue q .other) => simp [NestedMeta.wellFormed] at hwfe
    | .meta (.list q n) => simp [NestedMeta.wellFormed] at hwfe
    | .lit v => simp [NestedMeta.wellFormed] at hwfe

/-- C7: for any scope name and any attribute list of well-formed entries in
which some key appears twice — a bare flag path occurring twice, or a
`key = "..."` key occurring twice — `apply_attrs` fails with the duplicate
("set twice") error.  The hypothesis only counts occurrences, so the
failure is independent of the order of the entries. -/
theorem C7_duplicate_key_errors (conf : FieldConf) (lname : List String)
    (nested : List NestedMeta)
    (hwf : ∀ e ∈ nested, e.wellFormed = true)
    (hdup : (∃ p, 2 ≤ nested.countP (NestedMeta.isFlagEntry p)) ∨
      (∃ p, 2 ≤ nested.countP (NestedMeta.isKeyEntry p))) :
    conf.applyAttrs (Meta.list lname nested) = .error .duplicateOption := by
  have hcol : collectParams nested [] [] = .error .duplicateOption := by
    rcases hdup with ⟨p, hp⟩ | ⟨p, hp⟩
    · exact collectParams_dup_flag nested [] [] p hwf (Or.inl hp)
    · exact collectParams_dup_key nested [] [] p hwf (Or.inl hp)
  simp only [FieldConf.applyAttrs, hcol]
  rfl

/-- C7 witness: two `public` flags in a `get` scope fail with the duplicate
error under the default configuration. -/
theorem C7_duplicate_key_errors_witness :
    FieldConf.default.applyAttrs
      (Meta.list ["get"] [.meta (.path ["public"]), .meta (.path ["public"])]) =
      .error .duplicateOption :=
  C7_duplicate_key_errors FieldConf.default ["get"]
    [.meta (.path ["public"]), .meta (.path ["public"])]
    (by decide) (Or.inl ⟨["public"], by decide⟩)

/-- Every method the getter block emits has a get-shaped kind. -/
theorem getBranch_no_clr (f : FieldDef) (pft : FieldType) (l : List Method)
    (h : getBranch f pft = some l) : ∀ m ∈ l, m.kind.isClr = false := by
  intro m hm
  unfold getBranch at h
  split at h
  · injection h with h
    subst h
    simp at hm
  · rename_i vis
    cases ht : f.conf.get.typ
    all_goals rw [ht] at h
    case auto =>
      cases hg : GetType.fromFieldType pft
      all_goals rw [hg] at h
      · exact Option.noConfusion h
      · rename_i g
        injection h with h
        subst h
        simp at hm
        subst hm
        cases g <;> rfl
    all_goals
      injection h with h
    all_goals
      subst h
    all_goals
      simp at hm
    all_goals
      subst hm
    all_goals rfl

/-- Every method the setter block emits has a set-shaped kind. -/
theorem setBranch_no_clr (f : FieldDef) (pft : FieldType) :
    ∀ m ∈ setBranch f pft, m.kind.isClr = false := by
  intro m hm
  unfold setBranch at hm
  split at hm
  · simp at hm
  · split at hm
    · simp at hm; subst hm; rfl
    · split at hm
      · simp at hm; subst hm; rfl
      · simp at hm; subst hm; rfl
    · simp at hm; subst hm; rfl

/-- The mutable-accessor block emits only the mutable-reference kind. -/
theorem mutBranch_no_clr (f : FieldDef) : ∀ m ∈ mutBranch f, m.kind.isClr = false := by
  intro m hm
  unfold mutBranch at hm
  split at hm
  · simp at hm
  · simp at hm; subst hm; rfl

/-- Every method the clear block emits has a clear-shaped kind. -/
theorem clrBranch_all_clr (f : FieldDef) (pft : FieldType) :
    ∀ m ∈ clrBranch f pft, m.kind.isClr = true := by
  intro m hm
  unfold clrBranch at hm
  split at hm
  · simp at hm
  · split at hm <;> simp_all [MethodKind.isClr]

/-- The clear block emits nothing exactly when the clear visibility is
`Disable` or the scope-resolved action is no-action. -/
theorem clrBranch_eq_nil_iff (f : FieldDef) (pft : FieldType) :
    clrBranch f pft = [] ↔
      f.conf.clr.vis = VisibilityConf.disable ∨
      resolveClr f.conf.clr.scope (ClrMethod.fromFieldType pft) = ClrMethod.none_ := by
  cases hv : f.conf.clr.vis
  case disable => simp [clrBranch, hv, VisibilityConf.toTs]
  all_goals
    cases hr : resolveClr f.conf.clr.scope (ClrMethod.fromFieldType pft) <;>
      simp [clrBranch, hv, VisibilityConf.toTs, hr]

/-- C3: the `clr.scope` resolution table — `Auto` keeps the natural action,
`Option_` keeps it exactly when it is `SetNone` and suppresses it
otherwise, `All` upgrades no-action to `SetDefault` and keeps everything
else — and the emission condition: among the methods derived for a field,
no clear descriptor appears exactly when the clear visibility is `Disable`
or the scope-resolved action is no-action. -/
theorem C3_clear_scope_and_emission :
    (∀ a, resolveClr ClrScopeConf.auto a = a) ∧
    (∀ a, resolveClr ClrScopeConf.option a =
      if a = ClrMethod.setNone then ClrMethod.setNone else ClrMethod.none_) ∧
    (∀ a, resolveClr ClrScopeConf.all a =
      if a = ClrMethod.none_ then ClrMethod.setDefault else a) ∧
    (∀ (f : FieldDef) (pft : FieldType) (ms : List Method),
      FieldType.fromType f.ty = some pft →
      derivePropertyForField f = some ms →
      (ms.filter (fun m => m.kind.isClr) = [] ↔
        f.conf.clr.vis = VisibilityConf.disable ∨
        resolveClr f.conf.clr.scope (ClrMethod.fromFieldType pft) = ClrMethod.none_)) := by
  refine ⟨fun a => rfl, fun a => ?_, fun a => ?_, ?_⟩
  · cases a <;> rfl
  · cases a <;> rfl
  · intro f pft ms hft hder
    unfold derivePropertyForField at hder
    rw [hft] at hder
    simp only [Option.bind_eq_bind, Option.some_bind] at hder
    cases hg : getBranch f pft with
    | none => rw [hg] at hder; exact Option.noConfusion hder
    | some getMs =>
      rw [hg] at hder
      injection hder with hder
      subst hder
      rw [List.filter_append, List.filter_append, List.filter_append]
      have h1 : getMs.filter (fun m => m.kind.isClr) = [] :=
        List.filter_eq_nil_iff.mpr
          (fun a ha => by simp [getBranch_no_clr f pft getMs hg a ha])
      have h2 : (setBranch f pft).filter (fun m => m.kind.isClr) = [] :=
        List.filter_eq_nil_iff.mpr
          (fun a ha => by simp [setBranch_no_clr f pft a ha])
      have h3 : (mutBranch f).filter (fun m => m.kind.isClr) = [] :=
        List.filter_eq_nil_iff.mpr
          (fun a ha => by simp [mutBranch_no_clr f a ha])
      have h4 : (clrBranch f pft).filter (fun m => m.kind.isClr) = clrBranch f pft :=
        List.filter_eq_self.mpr (fun a ha => clrBranch_all_clr f pft a ha)
      rw [h1, h2, h3, h4]
      simp only [List.nil_append]
      exact clrBranch_eq_nil_iff f pft

/-- C3 witness: a `bool` field under the default configuration — its three
derived methods contain no clear descriptor, and indeed the default
`Option_` scope resolves the natural `SetDefault` action to no-action. -/
theorem C3_clear_scope_and_emission_witness :
    (([⟨VisTs.pubCrate, "" ++ "flag" ++ "",
          MethodKind.getCopy (RustType.path [("bool", none)])⟩,
        ⟨VisTs.pubCrate, "set_" ++ "flag" ++ "",
          MethodKind.setPlain SetTypeConf.ref (RustType.path [("bool", none)])⟩,
        ⟨VisTs.pubCrate, "mut_" ++ "flag" ++ "",
          MethodKind.mutRef (RustType.path [("bool", none)])⟩] : List Method).filter
        (fun m => m.kind.isClr) = [] ↔
      FieldConf.default.clr.vis = VisibilityConf.disable ∨
        resolveClr FieldConf.default.clr.scope (ClrMethod.fromFieldType FieldType.boolean) =
          ClrMethod.none_) :=
  C3_clear_scope_and_emission.2.2.2
    ⟨"flag", RustType.path [("bool", none)], FieldConf.default⟩ FieldType.boolean _ rfl rfl
